import Mathlib

/-!
Shallow embedding of the resource aggregation, formatting and combining
core of kubectl-rltop (packages `pkg` and `cmd`).

Modelling conventions, used throughout:

* `resource.Quantity` values are embedded as `Int` at the granularity the
  source reads them: millicores for CPU (`MilliValue()`), bytes for memory
  (`Value()`).  Quantity addition and `Cmp` are exact integer operations in
  the source as well.  A key that is missing from a Go `ResourceList` map
  yields the zero quantity, so "absent" and "zero" coincide, exactly as the
  source's `IsZero()` checks assume.
* Go `float64` arithmetic (`float64(a)/float64(b)*100`, `%.0f`, `%.2f`)
  is embedded as exact integer/rational arithmetic with the rounding mode
  of Go's `strconv` formatting, which is round-to-nearest, ties-to-even.
  For power-of-two denominators (all of `formatMemory` below `2^53`) the
  double is the exact quotient and the model coincides with the program.
  For other denominators (`formatCPU`'s two-decimal branch, percentage
  totals) the double can sit a half-ulp off the exact quotient, so at a
  decimal tie the program may round the other way; theorems on those
  paths therefore assert only tie-direction-invariant properties — the
  rendered shape and an inclusive nearest-or-tie bound — which the
  program and the model share.
* `fmt.Sprintf("%d", n)` is embedded as `intToStr`, a plain decimal
  renderer defined here so that its output can be reasoned about.
* Go strings are Lean `String`s; `strings.HasSuffix`/`TrimSuffix` are
  embedded via reversed character lists (`hasSuffix`, `trimSuffixStr`),
  which agree with the Go functions on all inputs.
-/

/-- One decimal digit `d < 10` as a character, mirroring what Go's integer
formatting emits. -/
def digitChr (d : Nat) : Char := Char.ofNat (48 + d)

/-- Accumulator version of decimal rendering: prepends the digits of `n`
(most significant first) to `acc`.  `fuel` bounds the recursion; any
`fuel > n` is enough. -/
def natToStrCore : Nat → Nat → List Char → List Char
  | 0, _, acc => acc
  | fuel + 1, n, acc =>
    if n = 0 then acc else natToStrCore fuel (n / 10) (digitChr (n % 10) :: acc)

/-- Decimal rendering of a natural number, as Go's `%d` prints it. -/
def natToStr (n : Nat) : String :=
  if n = 0 then "0" else String.mk (natToStrCore (n + 1) n [])

/-- Decimal rendering of an integer, as Go's `%d` prints it. -/
def intToStr (i : Int) : String :=
  if i < 0 then "-" ++ natToStr i.natAbs else natToStr i.natAbs

/-- Round `num / den` (for `den > 0`) to the nearest integer, ties to even:
the rounding Go's default float formatting (`%.0f`) applies to an exactly
representable quotient. -/
def roundHalfEven (num den : Int) : Int :=
  if 2 * (num % den) < den then num / den
  else if den < 2 * (num % den) then num / den + 1
  else if (num / den) % 2 = 0 then num / den else num / den + 1

/-- Render an integer in `[0, 100)` as exactly two decimal-fraction digits. -/
def pad2 (f : Int) : String :=
  if f < 10 then "0" ++ intToStr f else intToStr f

/-- Go's `fmt.Sprintf("%.2f", float64(num)/float64(den))` for a nonnegative
`num` and positive `den`: the quotient scaled by 100 and rounded
ties-to-even on the exact rational, split into integer part and two
fraction digits.  For a power-of-two `den` (and `num < 2^53`) this is the
program's exact output.  For `den = 1000` the intermediate double can sit
below an exact decimal tie, so the program may round the tie digit down
where this model rounds to even (Go prints "1.01" for 1015 millicores,
this model "1.02"); theorems over that path assert only the rendered
shape and a half-unit bound, on which the two agree everywhere. -/
def fmt2dec (num den : Int) : String :=
  let s := roundHalfEven (100 * num) den
  intToStr (s / 100) ++ "." ++ pad2 (s % 100)

/-- Go's `strings.HasSuffix`, via reversed character lists. -/
def hasSuffix (s suffixStr : String) : Bool :=
  suffixStr.data.reverse.isPrefixOf s.data.reverse

/-- Go's `strings.TrimSuffix`: drops `suffixStr` when present, else returns
`s` unchanged. -/
def trimSuffixStr (s suffixStr : String) : String :=
  if hasSuffix s suffixStr then
    String.mk ((s.data.reverse.drop suffixStr.data.length).reverse)
  else s

/-- pkg.formatCPU (part_001): formats a millicore count.  The source's
float-integrality test `cores == float64(int64(cores))` is divisibility by
1000 in exact arithmetic. -/
def formatCPU (millicores : Int) : String :=
  if millicores = 0 then "0"
  else if millicores < 1000 then intToStr millicores ++ "m"
  else if millicores % 1000 = 0 then intToStr (millicores / 1000)
  else fmt2dec millicores 1000

/-- Binary kilobyte, as the source's `KB = 1024`. -/
def memKB : Int := 1024

/-- Binary megabyte, as the source's `MB = KB * 1024`. -/
def memMB : Int := memKB * 1024

/-- Binary gigabyte, as the source's `GB = MB * 1024`. -/
def memGB : Int := memMB * 1024

/-- pkg.formatMemory (part_001): formats a byte count with the largest
binary unit it reaches, two decimals, or plain bytes below 1 Ki. -/
def formatMemory (bytes : Int) : String :=
  if bytes = 0 then "0"
  else if memGB ≤ bytes then fmt2dec bytes memGB ++ "Gi"
  else if memMB ≤ bytes then fmt2dec bytes memMB ++ "Mi"
  else if memKB ≤ bytes then fmt2dec bytes memKB ++ "Ki"
  else intToStr bytes ++ "B"

/-- pkg.FormatResourceQuantity (resources.go).  The memory branch calls
`Quantity.String()`; aggregated quantities carry no format hint here, so it
renders the plain byte count (that branch feeds only the `MemoryRequestStr`
and `MemoryLimitStr` fields, which no claim inspects). -/
def FormatResourceQuantity (q : Int) (isCPU : Bool) : String :=
  if q = 0 then "-"
  else if isCPU then
    if q = 0 then "0m" else intToStr q ++ "m"
  else intToStr q

/-- pkg.FormatMemoryInUnit (resources.go): renders a byte quantity in a
caller-chosen binary unit, defaulting to Mi for an unrecognized unit. -/
def FormatMemoryInUnit (q : Int) (targetUnit : String) : String :=
  if q = 0 then "-"
  else if targetUnit = "Gi" then fmt2dec q memGB ++ "Gi"
  else if targetUnit = "Mi" then fmt2dec q memMB ++ "Mi"
  else if targetUnit = "Ki" then fmt2dec q memKB ++ "Ki"
  else fmt2dec q memMB ++ "Mi"

/-- pkg.ExtractMemoryUnit (resources.go): recovers the unit suffix of a
formatted memory string, defaulting to Mi. -/
def ExtractMemoryUnit (memoryStr : String) : String :=
  if memoryStr = "" ∨ memoryStr = "-" ∨ memoryStr = "<unknown>" then "Mi"
  else if hasSuffix memoryStr "Gi" then "Gi"
  else if hasSuffix memoryStr "Mi" then "Mi"
  else if hasSuffix memoryStr "Ki" then "Ki"
  else if hasSuffix memoryStr "G" then "Gi"
  else if hasSuffix memoryStr "M" then "Mi"
  else if hasSuffix memoryStr "K" then "Ki"
  else "Mi"

/-- Value of a decimal digit character. -/
def digitVal (c : Char) : Nat := c.toNat - 48

/-- Value of a list of decimal digit characters, most significant first. -/
def parseNatChars (cs : List Char) : Nat :=
  cs.foldl (fun a c => 10 * a + digitVal c) 0

/-- Go's `fmt.Sscanf(s, "%f", &v)` / `strconv.ParseFloat` on the
nonnegative decimal strings this program produces: parses a leading run of
digits, then an optional point and fraction digits, stopping at anything
else; an input with no leading digits leaves the value 0, as Go's scan
failure does.  The result is the exact rational (float64 is exact on every
string this program formats and re-parses). -/
def parseFloatQ (s : String) : ℚ :=
  let cs := s.data
  let intPart := cs.takeWhile Char.isDigit
  let rest := cs.drop intPart.length
  let w : ℚ := (parseNatChars intPart : ℚ)
  match rest with
  | '.' :: rest2 =>
    let fracPart := rest2.takeWhile Char.isDigit
    w + (parseNatChars fracPart : ℚ) / ((10 : ℚ) ^ fracPart.length)
  | _ => w

/-- Go's `int64(x)` on a float64: truncation toward zero. -/
def ratTrunc (q : ℚ) : Int :=
  if 0 ≤ q then q.floor else -((-q).floor)

/-- cmd.parseCPUValue (top.go): sort value of a formatted CPU string. -/
def parseCPUValue (cpuStr : String) : ℚ :=
  if cpuStr = "" ∨ cpuStr = "-" ∨ cpuStr = "<unknown>" then 0
  else parseFloatQ (trimSuffixStr cpuStr "m")

/-- cmd.parseMemoryValue (top.go): sort value in bytes of a formatted
memory string; a suffix other than Gi/Mi/Ki falls through to 0. -/
def parseMemoryValue (memStr : String) : Int :=
  if memStr = "" ∨ memStr = "-" ∨ memStr = "<unknown>" then 0
  else if hasSuffix memStr "Gi" then ratTrunc (parseFloatQ memStr * (1024 * 1024 * 1024))
  else if hasSuffix memStr "Mi" then ratTrunc (parseFloatQ memStr * (1024 * 1024))
  else if hasSuffix memStr "Ki" then ratTrunc (parseFloatQ memStr * 1024)
  else 0

/-- cmd.parseCPUValueForNode (part_002): textually separate from
cmd.parseCPUValue in the repository but the identical computation. -/
def parseCPUValueForNode (cpuStr : String) : ℚ := parseCPUValue cpuStr

/-- cmd.parseMemoryValueForNode (part_002): identical computation to
cmd.parseMemoryValue. -/
def parseMemoryValueForNode (memStr : String) : Int := parseMemoryValue memStr

/-- A container's resource specification: `Resources.Requests[cpu]` etc.
A `nil` map and a missing key both mean "no value", collapsed to `none`. -/
structure Container where
  cpuRequest : Option Int
  memoryRequest : Option Int
  cpuLimit : Option Int
  memoryLimit : Option Int
deriving DecidableEq, Repr

/-- The slice of a `corev1.Pod` this core reads: identity, assigned node
(empty string = unscheduled), regular and init containers. -/
structure Pod where
  name : String
  ns : String
  nodeName : String
  containers : List Container
  initContainers : List Container
deriving DecidableEq, Repr

/-- pkg.NodeAggregatedResources (part_001): per-node running totals. -/
structure NodeAggregatedResources where
  nodeName : String
  cpuRequest : Int
  cpuLimit : Int
  memoryRequest : Int
  memoryLimit : Int
deriving DecidableEq, Repr

/-- A fresh all-zero aggregate for a node, as the source's
`&NodeAggregatedResources{NodeName: ...}`. -/
def emptyAggregate (n : String) : NodeAggregatedResources :=
  { nodeName := n, cpuRequest := 0, cpuLimit := 0, memoryRequest := 0, memoryLimit := 0 }

/-- One regular container folded into running totals: each present request
or limit is added.  This per-container step is written identically in
`AggregatePodResourcesByNode` (part_001) and `GetPodResources`
(resources.go); it is modelled once. -/
def addRegularContainer (agg : NodeAggregatedResources) (c : Container) : NodeAggregatedResources :=
  let agg1 := match c.cpuRequest with
    | some q => { agg with cpuRequest := agg.cpuRequest + q }
    | none => agg
  let agg2 := match c.memoryRequest with
    | some q => { agg1 with memoryRequest := agg1.memoryRequest + q }
    | none => agg1
  let agg3 := match c.cpuLimit with
    | some q => { agg2 with cpuLimit := agg2.cpuLimit + q }
    | none => agg2
  let agg4 := match c.memoryLimit with
    | some q => { agg3 with memoryLimit := agg3.memoryLimit + q }
    | none => agg3
  agg4

/-- One init container folded into running totals: a present request
replaces the running request total when it exceeds it (`Cmp(...) > 0`);
limits are untouched.  Shared by both aggregation sites, like
`addRegularContainer`. -/
def applyInitContainer (agg : NodeAggregatedResources) (c : Container) : NodeAggregatedResources :=
  let agg1 := match c.cpuRequest with
    | some q => if agg.cpuRequest < q then { agg with cpuRequest := q } else agg
    | none => agg
  let agg2 := match c.memoryRequest with
    | some q => if agg1.memoryRequest < q then { agg1 with memoryRequest := q } else agg1
    | none => agg1
  agg2

/-- One iteration of the pod loop of pkg.AggregatePodResourcesByNode
(part_001): skip an unscheduled pod, otherwise fold the pod's regular then
init containers into its node's entry (created zeroed on first use). -/
def processPod (m : String → Option NodeAggregatedResources) (p : Pod) :
    String → Option NodeAggregatedResources :=
  if p.nodeName = "" then m
  else
    let base := (m p.nodeName).getD (emptyAggregate p.nodeName)
    let afterRegular := p.containers.foldl addRegularContainer base
    let afterInit := p.initContainers.foldl applyInitContainer afterRegular
    fun n => if n = p.nodeName then some afterInit else m n

/-- pkg.AggregatePodResourcesByNode (part_001), on an already-fetched pod
list: the Go map `nodeResources` is the function, `none` meaning "no entry". -/
def AggregatePodResourcesByNode (pods : List Pod) : String → Option NodeAggregatedResources :=
  pods.foldl processPod (fun _ => none)

/-- The per-pod totals computed inside pkg.GetPodResources (resources.go):
sum over regular containers, then the init-container max rule, starting
from zero totals. -/
def podTotals (p : Pod) : NodeAggregatedResources :=
  let afterRegular := p.containers.foldl addRegularContainer (emptyAggregate "")
  p.initContainers.foldl applyInitContainer afterRegular

/-- pkg.PodResources (resources.go). -/
structure PodResources where
  name : String
  ns : String
  cpuRequest : String
  cpuLimit : String
  memoryRequest : Int
  memoryLimit : Int
  memoryRequestStr : String
  memoryLimitStr : String
deriving DecidableEq, Repr

/-- pkg.GetPodResources (resources.go) on an already-fetched pod list (the
fetch and name filtering are the caller's I/O). -/
def GetPodResources (pods : List Pod) : List PodResources :=
  pods.map fun p =>
    let t := podTotals p
    { name := p.name
      ns := p.ns
      cpuRequest := FormatResourceQuantity t.cpuRequest true
      cpuLimit := FormatResourceQuantity t.cpuLimit true
      memoryRequest := t.memoryRequest
      memoryLimit := t.memoryLimit
      memoryRequestStr := FormatResourceQuantity t.memoryRequest false
      memoryLimitStr := FormatResourceQuantity t.memoryLimit false }

/-- The slice of a `corev1.Node` read by CalculateNodePercentages: the CPU
(millicores) and memory (bytes) entries of `Status.Allocatable` and
`Status.Capacity`; a missing entry is the zero quantity. -/
structure Node where
  cpuAllocatable : Int
  memoryAllocatable : Int
  cpuCapacity : Int
  memoryCapacity : Int
deriving DecidableEq, Repr

/-- The `fmt.Sprintf("%.0f%%", percent)` rendering of
`float64(usage)/float64(total)*100`, modelled as ties-to-even on the exact
rational.  The double computation can land a hair below an exact half
(2300m of 4000m computes 57.5 − 2⁻⁴⁷, printing "57%", where this model
gives "58%"), so theorems about percentages assert only the rendered
shape and the inclusive nearest-or-tie bound, which hold of both. -/
def formatPercent (usage total : Int) : String :=
  intToStr (roundHalfEven (100 * usage) total) ++ "%"

/-- pkg.CalculateNodePercentages (part_001): per-resource usage
percentages against allocatable or capacity, the sentinel "-" for a
zero/absent total. -/
def CalculateNodePercentages (node : Node) (cpuUsageMilli memoryUsageBytes : Int)
    (showCapacity : Bool) : String × String :=
  let cpuTotal := if showCapacity then node.cpuCapacity else node.cpuAllocatable
  let memoryTotal := if showCapacity then node.memoryCapacity else node.memoryAllocatable
  let cpuPercent :=
    if cpuTotal ≠ 0 then
      if 0 < cpuTotal then formatPercent cpuUsageMilli cpuTotal else "0%"
    else "-"
  let memoryPercent :=
    if memoryTotal ≠ 0 then
      if 0 < memoryTotal then formatPercent memoryUsageBytes memoryTotal else "0%"
    else "-"
  (cpuPercent, memoryPercent)

/-- Modelled from the spec's words, for comparison with the source only:
"round-half-away-from-zero (so an exact .5 fraction rounds up in
magnitude)" applied to a nonnegative `num / den`, `den > 0`. -/
def specRoundHalfAwayFromZero (num den : Int) : Int :=
  let q := num / den
  let r := num % den
  if 2 * r < den then q else q + 1

/-- pkg.PodMetrics (part_001): formatted usage of one pod. -/
structure PodMetrics where
  name : String
  ns : String
  cpu : String
  memory : String
deriving DecidableEq, Repr

/-- cmd.CombinedPodData (top.go). -/
structure CombinedPodData where
  name : String
  cpuUsage : String
  cpuRequest : String
  cpuLimit : String
  memoryUsage : String
  memoryRequest : String
  memoryLimit : String
deriving DecidableEq, Repr

/-- The `"%s/%s"` namespace/name join key of cmd.combineMetricsAndResources. -/
def podKey (ns name : String) : String := ns ++ "/" ++ name

/-- Lookup in the `resourcesMap` of cmd.combineMetricsAndResources. -/
def lookupResource (resources : List PodResources) (key : String) : Option PodResources :=
  resources.find? fun r => podKey r.ns r.name == key

/-- The row cmd.combineMetricsAndResources builds for a pod that has a
usage sample: request/limit columns from the matching resource record when
one exists (memory re-rendered in the usage figure's unit), all "-"
otherwise. -/
def metricRow (resources : List PodResources) (m : PodMetrics) : CombinedPodData :=
  match lookupResource resources (podKey m.ns m.name) with
  | some r =>
    let memoryUnit := ExtractMemoryUnit m.memory
    { name := m.name
      cpuUsage := m.cpu
      cpuRequest := r.cpuRequest
      cpuLimit := r.cpuLimit
      memoryUsage := m.memory
      memoryRequest := if r.memoryRequest ≠ 0 then FormatMemoryInUnit r.memoryRequest memoryUnit else "-"
      memoryLimit := if r.memoryLimit ≠ 0 then FormatMemoryInUnit r.memoryLimit memoryUnit else "-" }
  | none =>
    { name := m.name
      cpuUsage := m.cpu
      cpuRequest := "-"
      cpuLimit := "-"
      memoryUsage := m.memory
      memoryRequest := "-"
      memoryLimit := "-" }

/-- The row cmd.combineMetricsAndResources builds for a pod that has a
resource record but no usage sample: both usage columns are the
"<unknown>" sentinel, memory rendered in the default Mi unit. -/
def resourceRow (r : PodResources) : CombinedPodData :=
  { name := r.name
    cpuUsage := "<unknown>"
    cpuRequest := r.cpuRequest
    cpuLimit := r.cpuLimit
    memoryUsage := "<unknown>"
    memoryRequest := if r.memoryRequest ≠ 0 then FormatMemoryInUnit r.memoryRequest "Mi" else "-"
    memoryLimit := if r.memoryLimit ≠ 0 then FormatMemoryInUnit r.memoryLimit "Mi" else "-" }

/-- cmd.combineMetricsAndResources (top.go).  The source iterates two hash
maps keyed by namespace/name with a `seen` set; server listings carry each
key once, so this is modelled as the metrics rows followed by the rows of
resources whose key no metric carries (the `Nodup` hypotheses of the
theorems below pin the unique-key regime). -/
def combineMetricsAndResources (metrics : List PodMetrics) (resources : List PodResources) :
    List CombinedPodData :=
  metrics.map (metricRow resources) ++
    (resources.filter fun r =>
      (metrics.find? fun m => podKey m.ns m.name == podKey r.ns r.name).isNone).map resourceRow

/-- pkg.NodeMetrics (part_001): formatted usage of one node (its percent
fields are filled only by the combiner and modelled there). -/
structure NodeMetrics where
  name : String
  cpu : String
  memory : String
deriving DecidableEq, Repr

/-- cmd.CombinedNodeData (part_002). -/
structure CombinedNodeData where
  name : String
  cpuUsage : String
  cpuPercent : String
  cpuRequest : String
  cpuLimit : String
  memoryUsage : String
  memoryPercent : String
  memoryRequest : String
  memoryLimit : String
deriving DecidableEq, Repr

/-- The row cmd.combineNodeMetricsAndResources builds for one node usage
sample: percentages when the node object is known, request/limit columns
from the node's aggregate when one exists, "-" otherwise. -/
def nodeRow (resources : String → Option NodeAggregatedResources)
    (nodes : String → Option Node) (showCapacity : Bool) (m : NodeMetrics) : CombinedNodeData :=
  let percents :=
    match nodes m.name with
    | some node =>
      CalculateNodePercentages node (ratTrunc (parseCPUValueForNode m.cpu))
        (parseMemoryValueForNode m.memory) showCapacity
    | none => ("-", "-")
  match resources m.name with
  | some agg =>
    let memoryUnit := ExtractMemoryUnit m.memory
    { name := m.name
      cpuUsage := m.cpu
      cpuPercent := percents.1
      cpuRequest := if agg.cpuRequest ≠ 0 then FormatResourceQuantity agg.cpuRequest true else "-"
      cpuLimit := if agg.cpuLimit ≠ 0 then FormatResourceQuantity agg.cpuLimit true else "-"
      memoryUsage := m.memory
      memoryPercent := percents.2
      memoryRequest := if agg.memoryRequest ≠ 0 then FormatMemoryInUnit agg.memoryRequest memoryUnit else "-"
      memoryLimit := if agg.memoryLimit ≠ 0 then FormatMemoryInUnit agg.memoryLimit memoryUnit else "-" }
  | none =>
    { name := m.name
      cpuUsage := m.cpu
      cpuPercent := percents.1
      cpuRequest := "-"
      cpuLimit := "-"
      memoryUsage := m.memory
      memoryPercent := percents.2
      memoryRequest := "-"
      memoryLimit := "-" }

/-- cmd.combineNodeMetricsAndResources (part_002): one row per node usage
sample, in order; nothing else. -/
def combineNodeMetricsAndResources (metrics : List NodeMetrics)
    (resources : String → Option NodeAggregatedResources)
    (nodes : String → Option Node) (showCapacity : Bool) : List CombinedNodeData :=
  metrics.map (nodeRow resources nodes showCapacity)

/-- Specification-side view: `k` is `num / den` rounded to the nearest
integer with ties to even — `k * den` is within half a `den` of `num`, and
an exact half forces `k` even. -/
def NearestTiesToEven (num den k : Int) : Prop :=
  2 * (num - k * den) ≤ den ∧ 2 * (k * den - num) ≤ den ∧
    ((2 * (num - k * den) = den ∨ 2 * (k * den - num) = den) → k % 2 = 0)

/-- Specification-side view: `k` is within half (inclusive) of
`num / den` — a nearest-or-tie whole value.  Unlike `NearestTiesToEven`
this leaves the direction of an exact tie unspecified, which is all the
floating computation guarantees. -/
def WithinHalfOf (num den k : Int) : Prop :=
  2 * (num - k * den) ≤ den ∧ 2 * (k * den - num) ≤ den

/-- Specification-side view: the summed CPU requests of a container list
(an absent request counts 0). -/
def regCpuRequestSum (cs : List Container) : Int :=
  (cs.map fun c => c.cpuRequest.getD 0).sum

/-- Specification-side view: the summed memory requests of a container list. -/
def regMemoryRequestSum (cs : List Container) : Int :=
  (cs.map fun c => c.memoryRequest.getD 0).sum

/-- Specification-side view: the summed CPU limits of a container list. -/
def regCpuLimitSum (cs : List Container) : Int :=
  (cs.map fun c => c.cpuLimit.getD 0).sum

/-- Specification-side view: the summed memory limits of a container list. -/
def regMemoryLimitSum (cs : List Container) : Int :=
  (cs.map fun c => c.memoryLimit.getD 0).sum

/-- Specification-side view: the largest CPU request among a list of init
containers, at least 0 (an absent request counts 0). -/
def initCpuRequestMax (cs : List Container) : Int :=
  (cs.map fun c => c.cpuRequest.getD 0).foldr max 0

/-- Specification-side view: the largest memory request among a list of
init containers, at least 0. -/
def initMemoryRequestMax (cs : List Container) : Int :=
  (cs.map fun c => c.memoryRequest.getD 0).foldr max 0

/-- Specification-side view of one scheduled pod's regular-container
contribution folded into a node total: each field grows by the pod's
summed regular-container figure. -/
def addPodTotals (b : NodeAggregatedResources) (p : Pod) : NodeAggregatedResources :=
  { nodeName := b.nodeName
    cpuRequest := b.cpuRequest + regCpuRequestSum p.containers
    cpuLimit := b.cpuLimit + regCpuLimitSum p.containers
    memoryRequest := b.memoryRequest + regMemoryRequestSum p.containers
    memoryLimit := b.memoryLimit + regMemoryLimitSum p.containers }

/-- A pod on node1 with one regular container requesting 100m CPU. -/
def regularPodA : Pod := ⟨"pod-a", "default", "node1", [⟨some 100, none, none, none⟩], []⟩

/-- A pod on node1 whose only resource figure is an init container
requesting 150m CPU. -/
def initPodB : Pod := ⟨"pod-b", "default", "node1", [], [⟨some 150, none, none, none⟩]⟩

/-- A pod on node1 with one regular container requesting 200m CPU. -/
def regularPodC : Pod := ⟨"pod-c", "default", "node1", [⟨some 200, none, none, none⟩], []⟩

/-- The spec's aggregation scenario: one pod on node1, regular-container
CPU request 100m, init-container CPU request 500m. -/
def scenarioPod : Pod :=
  ⟨"pod-s", "default", "node1", [⟨some 100, none, none, none⟩], [⟨some 500, none, none, none⟩]⟩

/-- A node with 4 cores (4000m) and 8Gi, allocatable equal to capacity. -/
def nodeFourCores : Node := ⟨4000, 8 * 1024 * 1024 * 1024, 4000, 8 * 1024 * 1024 * 1024⟩

/-- A node whose allocatable and capacity CPU entries are absent (zero
quantity) while the memory entries are 1Gi. -/
def nodeNoCpuTotal : Node := ⟨0, 1024 * 1024 * 1024, 0, 1024 * 1024 * 1024⟩

/-- One pod usage sample with no matching resource record below. -/
def metricsExample : List PodMetrics := [⟨"pod-m", "default", "100m", "128.00Mi"⟩]

/-- One pod resource record whose key matches no usage sample above. -/
def resourcesExample : List PodResources :=
  [⟨"pod-r", "default", "200m", "-", 134217728, 0, "134217728", "-"⟩]

/-- A node-aggregate map holding one entry, for a node that has no usage
sample. -/
def aggOnlyResources : String → Option NodeAggregatedResources :=
  fun n => if n = "node1" then some ⟨"node1", 500, 0, 0, 0⟩ else none

/-- Appending strings appends their character lists. -/
theorem string_data_append (s t : String) : (s ++ t).data = s.data ++ t.data := by
  cases s; cases t; rfl

/-- A string append written as a `String.mk` of the joined characters. -/
theorem append_eq_mk (s t : String) : s ++ t = String.mk (s.data ++ t.data) := by
  cases s; cases t; rfl

/-- Rendering digits never shortens the accumulator. -/
theorem natToStrCore_length_le (fuel : Nat) :
    ∀ (n : Nat) (acc : List Char), acc.length ≤ (natToStrCore fuel n acc).length := by
  induction fuel with
  | zero => intro n acc; exact Nat.le_refl _
  | succ fuel ih =>
    intro n acc
    by_cases h : n = 0
    · simp [natToStrCore, h]
    · simp only [natToStrCore, if_neg h]
      calc acc.length ≤ (digitChr (n % 10) :: acc).length := by simp
        _ ≤ _ := ih (n / 10) _

/-- The accumulator is a suffix of the rendered digits. -/
theorem natToStrCore_append (fuel : Nat) :
    ∀ (n : Nat) (acc : List Char), natToStrCore fuel n acc = natToStrCore fuel n [] ++ acc := by
  induction fuel with
  | zero => intro n acc; simp [natToStrCore]
  | succ fuel ih =>
    intro n acc
    by_cases h : n = 0
    · simp [natToStrCore, h]
    · simp only [natToStrCore, if_neg h]
      rw [ih (n / 10) (digitChr (n % 10) :: acc), ih (n / 10) [digitChr (n % 10)]]
      simp

/-- Code of a decimal digit character. -/
theorem digitChr_toNat (d : Nat) (h : d < 10) : (digitChr d).toNat = 48 + d := by
  interval_cases d <;> decide

/-- Reading back a digit character gives the digit. -/
theorem digitVal_digitChr (d : Nat) (h : d < 10) : digitVal (digitChr d) = d := by
  interval_cases d <;> decide

/-- Digit characters satisfy `Char.isDigit`. -/
theorem isDigit_digitChr (d : Nat) (h : d < 10) : (digitChr d).isDigit = true := by
  interval_cases d <;> decide

/-- Every character the digit renderer emits is a digit character (or came
from the accumulator). -/
theorem natToStrCore_chars (fuel : Nat) :
    ∀ (n : Nat) (acc : List Char) (c : Char), c ∈ natToStrCore fuel n acc →
      c ∈ acc ∨ ∃ d, d < 10 ∧ c = digitChr d := by
  induction fuel with
  | zero =>
    intro n acc c hc
    left; simpa [natToStrCore] using hc
  | succ fuel ih =>
    intro n acc c hc
    by_cases h : n = 0
    · left; simpa [natToStrCore, h] using hc
    · simp only [natToStrCore, if_neg h] at hc
      rcases ih _ _ _ hc with hmem | hd
      · rcases List.mem_cons.mp hmem with hc0 | hacc
        · right; exact ⟨n % 10, Nat.mod_lt _ (by norm_num), hc0⟩
        · left; exact hacc
      · right; exact hd

/-- Parsing one more trailing digit multiplies by ten and adds it. -/
theorem parseNatChars_append_single (cs : List Char) (c : Char) :
    parseNatChars (cs ++ [c]) = 10 * parseNatChars cs + digitVal c := by
  simp [parseNatChars, List.foldl_append]

/-- Parsing the rendered digits of `n` recovers `n`. -/
theorem parseNatChars_natToStrCore :
    ∀ (fuel n : Nat), n < fuel → parseNatChars (natToStrCore fuel n []) = n := by
  intro fuel
  induction fuel with
  | zero => intro n h; omega
  | succ fuel ih =>
    intro n h
    by_cases h0 : n = 0
    · simp [natToStrCore, h0, parseNatChars]
    · simp only [natToStrCore, if_neg h0]
      rw [natToStrCore_append, parseNatChars_append_single,
        ih (n / 10) (by omega), digitVal_digitChr _ (Nat.mod_lt _ (by norm_num))]
      omega

/-- A rendered natural number has at least one character. -/
theorem natToStr_length_pos (n : Nat) : 1 ≤ (natToStr n).length := by
  unfold natToStr
  by_cases h : n = 0
  · rw [if_pos h]; decide
  · rw [if_neg h]
    show 1 ≤ (natToStrCore (n + 1) n []).length
    simp only [natToStrCore, if_neg h]
    calc 1 = ([digitChr (n % 10)] : List Char).length := rfl
      _ ≤ _ := natToStrCore_length_le n (n / 10) _

/-- Every character of a rendered natural number is a digit character. -/
theorem natToStr_chars (n : Nat) :
    ∀ c ∈ (natToStr n).data, ∃ d, d < 10 ∧ c = digitChr d := by
  intro c hc
  unfold natToStr at hc
  by_cases h : n = 0
  · rw [if_pos h] at hc
    refine ⟨0, by norm_num, ?_⟩
    have : c = '0' := by simpa using hc
    rw [this]; rfl
  · rw [if_neg h] at hc
    rcases natToStrCore_chars (n + 1) n [] c hc with h0 | hd
    · simp at h0
    · exact hd

/-- Parsing a rendered natural number recovers it. -/
theorem parseNatChars_natToStr (n : Nat) : parseNatChars (natToStr n).data = n := by
  unfold natToStr
  by_cases h : n = 0
  · rw [if_pos h, h]; decide
  · rw [if_neg h]
    exact parseNatChars_natToStrCore (n + 1) n (Nat.lt_succ_self n)

/-- Nonnegative integers render without a sign. -/
theorem intToStr_of_nonneg (i : Int) (h : 0 ≤ i) : intToStr i = natToStr i.natAbs := by
  unfold intToStr
  rw [if_neg (by omega)]

/-- A rendered integer has at least one character. -/
theorem intToStr_length_pos (i : Int) : 1 ≤ (intToStr i).length := by
  unfold intToStr
  by_cases h : i < 0
  · rw [if_pos h, String.length_append]
    have := natToStr_length_pos i.natAbs
    omega
  · rw [if_neg h]
    exact natToStr_length_pos _

/-- A rendered percentage is never the "-" sentinel. -/
theorem intToStr_append_percent_ne_dash (k : Int) : intToStr k ++ "%" ≠ "-" := by
  intro h
  have hl := congrArg String.length h
  rw [String.length_append] at hl
  have h1 := intToStr_length_pos k
  have h2 : ("%" : String).length = 1 := rfl
  have h3 : ("-" : String).length = 1 := rfl
  omega

/-- A string ending in `c` differs from any string not ending in `c`. -/
theorem mk_append_singleton_ne (ds : List Char) (c : Char) (t : String)
    (h : t.data.reverse.head? ≠ some c) : String.mk (ds ++ [c]) ≠ t := by
  intro he
  apply h
  rw [← he]
  show ((ds ++ [c]).reverse).head? = some c
  rw [List.reverse_append]
  rfl

/-- `hasSuffix` is false when the candidate suffix ends in a character the
string does not end in. -/
theorem hasSuffix_mk_append_ne (ds : List Char) (c : Char) (t : String) (x : Char)
    (xs : List Char) (ht : t.data.reverse = x :: xs) (hne : x ≠ c) :
    hasSuffix (String.mk (ds ++ [c])) t = false := by
  unfold hasSuffix
  rw [ht]
  show (x :: xs).isPrefixOf ((ds ++ [c]).reverse) = false
  rw [List.reverse_append]
  show (x == c && xs.isPrefixOf ds.reverse) = false
  simp [hne]

/-- Dropping a suffix that is present gives back the stem. -/
theorem trimSuffixStr_mk_append (ds : List Char) (t : String) :
    trimSuffixStr (String.mk (ds ++ t.data)) t = String.mk ds := by
  unfold trimSuffixStr
  have hs : hasSuffix (String.mk (ds ++ t.data)) t = true := by
    unfold hasSuffix
    show t.data.reverse.isPrefixOf ((ds ++ t.data).reverse) = true
    rw [List.reverse_append]
    exact List.isPrefixOf_iff_prefix.mpr (List.prefix_append _ _)
  rw [if_pos hs]
  congr 1
  show ((((ds ++ t.data).reverse).drop t.data.length).reverse) = ds
  rw [List.reverse_append]
  have hdrop : (t.data.reverse ++ ds.reverse).drop t.data.length = ds.reverse := by
    rw [← List.length_reverse t.data]
    exact List.drop_left _ _
  rw [hdrop, List.reverse_reverse]

/-- Parsing a string of digit characters yields their numeric value. -/
theorem parseFloatQ_digits (s : String) (h : ∀ c ∈ s.data, c.isDigit = true) :
    parseFloatQ s = (parseNatChars s.data : ℚ) := by
  simp only [parseFloatQ]
  rw [List.takeWhile_eq_self_iff.mpr h, List.drop_length]

/-- The memory sort-value parser sends any string ending in a bare "B" to
zero: that suffix is none of the sentinels and none of Gi/Mi/Ki. -/
theorem parseMemoryValue_ends_B (ds : List Char) :
    parseMemoryValue (String.mk (ds ++ ['B'])) = 0 := by
  unfold parseMemoryValue
  have s1 : String.mk (ds ++ ['B']) ≠ "" := mk_append_singleton_ne _ _ _ (by decide)
  have s2 : String.mk (ds ++ ['B']) ≠ "-" := mk_append_singleton_ne _ _ _ (by decide)
  have s3 : String.mk (ds ++ ['B']) ≠ "<unknown>" := mk_append_singleton_ne _ _ _ (by decide)
  have g1 : hasSuffix (String.mk (ds ++ ['B'])) "Gi" = false :=
    hasSuffix_mk_append_ne _ _ _ 'i' ['G'] rfl (by decide)
  have g2 : hasSuffix (String.mk (ds ++ ['B'])) "Mi" = false :=
    hasSuffix_mk_append_ne _ _ _ 'i' ['M'] rfl (by decide)
  have g3 : hasSuffix (String.mk (ds ++ ['B'])) "Ki" = false :=
    hasSuffix_mk_append_ne _ _ _ 'i' ['K'] rfl (by decide)
  simp [s1, s2, s3, g1, g2, g3]

/-- The comparison-and-replace step of the init rule is a `max`. -/
theorem if_lt_eq_max (a q : Int) : (if a < q then q else a) = max a q := by
  rcases le_or_lt q a with h | h
  · rw [if_neg (not_lt.mpr h), max_eq_left h]
  · rw [if_pos h, max_eq_right (le_of_lt h)]

/-- The running totals after one regular container, field by field. -/
theorem addRegularContainer_eq (a : NodeAggregatedResources) (c : Container) :
    addRegularContainer a c =
      { nodeName := a.nodeName
        cpuRequest := a.cpuRequest + c.cpuRequest.getD 0
        cpuLimit := a.cpuLimit + c.cpuLimit.getD 0
        memoryRequest := a.memoryRequest + c.memoryRequest.getD 0
        memoryLimit := a.memoryLimit + c.memoryLimit.getD 0 } := by
  rcases c with ⟨cr, mr, cl, ml⟩
  cases cr <;> cases mr <;> cases cl <;> cases ml <;> simp [addRegularContainer]

/-- Closed form of the regular-container fold: each total grows by the
summed figures of the container list. -/
theorem foldl_addRegular_eq (cs : List Container) :
    ∀ (a : NodeAggregatedResources),
      cs.foldl addRegularContainer a =
        { nodeName := a.nodeName
          cpuRequest := a.cpuRequest + regCpuRequestSum cs
          cpuLimit := a.cpuLimit + regCpuLimitSum cs
          memoryRequest := a.memoryRequest + regMemoryRequestSum cs
          memoryLimit := a.memoryLimit + regMemoryLimitSum cs } := by
  induction cs with
  | nil =>
    intro a
    simp [regCpuRequestSum, regCpuLimitSum, regMemoryRequestSum, regMemoryLimitSum]
  | cons c cs ih =>
    intro a
    rw [List.foldl_cons, addRegularContainer_eq, ih]
    simp [regCpuRequestSum, regCpuLimitSum, regMemoryRequestSum, regMemoryLimitSum, add_assoc]

/-- The init step, field by field: requests take a max (an absent request
changes nothing), limits and the node name are untouched. -/
theorem applyInitContainer_eq (a : NodeAggregatedResources) (c : Container) :
    applyInitContainer a c =
      { nodeName := a.nodeName
        cpuRequest := max a.cpuRequest (c.cpuRequest.getD a.cpuRequest)
        cpuLimit := a.cpuLimit
        memoryRequest := max a.memoryRequest (c.memoryRequest.getD a.memoryRequest)
        memoryLimit := a.memoryLimit } := by
  rcases a with ⟨an, acr, acl, amr, aml⟩
  rcases c with ⟨cr, mr, cl, ml⟩
  cases cr <;> cases mr <;>
    (try simp only [applyInitContainer, Option.getD_some, Option.getD_none, max_self]) <;>
    (try simp only [max_def]) <;>
    split_ifs <;>
    (try dsimp only at *) <;>
    (try simp only [NodeAggregatedResources.mk.injEq, true_and, and_true]) <;>
    first
      | rfl
      | omega

/-- The init maximum is at least zero. -/
theorem initCpuRequestMax_nonneg (cs : List Container) : 0 ≤ initCpuRequestMax cs := by
  induction cs with
  | nil => exact le_refl 0
  | cons c cs ih =>
    calc (0 : Int) ≤ initCpuRequestMax cs := ih
      _ ≤ _ := by simp [initCpuRequestMax]

/-- The memory init maximum is at least zero. -/
theorem initMemoryRequestMax_nonneg (cs : List Container) : 0 ≤ initMemoryRequestMax cs := by
  induction cs with
  | nil => exact le_refl 0
  | cons c cs ih =>
    calc (0 : Int) ≤ initMemoryRequestMax cs := ih
      _ ≤ _ := by simp [initMemoryRequestMax]

/-- Unfolding the init maximum one container at a time. -/
theorem initCpuRequestMax_cons (c : Container) (cs : List Container) :
    initCpuRequestMax (c :: cs) = max (c.cpuRequest.getD 0) (initCpuRequestMax cs) := by
  simp [initCpuRequestMax]

/-- Unfolding the memory init maximum one container at a time. -/
theorem initMemoryRequestMax_cons (c : Container) (cs : List Container) :
    initMemoryRequestMax (c :: cs) = max (c.memoryRequest.getD 0) (initMemoryRequestMax cs) := by
  simp [initMemoryRequestMax]

/-- Folding init containers leaves limits and the node name unchanged. -/
theorem foldl_applyInit_frame (cs : List Container) :
    ∀ (a : NodeAggregatedResources),
      (cs.foldl applyInitContainer a).cpuLimit = a.cpuLimit ∧
      (cs.foldl applyInitContainer a).memoryLimit = a.memoryLimit ∧
      (cs.foldl applyInitContainer a).nodeName = a.nodeName := by
  induction cs with
  | nil => intro a; exact ⟨rfl, rfl, rfl⟩
  | cons c cs ih =>
    intro a
    rw [List.foldl_cons]
    rcases ih (applyInitContainer a c) with ⟨h1, h2, h3⟩
    refine ⟨?_, ?_, ?_⟩ <;> rw [applyInitContainer_eq] at h1 h2 h3 ⊢ <;> simp_all

/-- Folding init containers on the CPU request, from a nonnegative start,
is the max of the start and the init maximum. -/
theorem foldl_applyInit_cpu (cs : List Container) :
    ∀ (a : NodeAggregatedResources), 0 ≤ a.cpuRequest →
      (cs.foldl applyInitContainer a).cpuRequest =
        max a.cpuRequest (initCpuRequestMax cs) := by
  induction cs with
  | nil =>
    intro a ha
    have : initCpuRequestMax [] = 0 := rfl
    rw [this, List.foldl_nil, max_eq_left ha]
  | cons c cs ih =>
    intro a ha
    rw [List.foldl_cons]
    have hstep := applyInitContainer_eq a c
    have hnn : 0 ≤ (applyInitContainer a c).cpuRequest := by
      rw [hstep]
      exact le_trans ha (le_max_left _ _)
    rw [ih _ hnn, hstep, initCpuRequestMax_cons]
    cases hc : c.cpuRequest with
    | none =>
      simp [hc, max_eq_right (initCpuRequestMax_nonneg cs)]
    | some q =>
      simp [hc, max_assoc]

/-- Folding init containers on the memory request, from a nonnegative
start, is the max of the start and the init maximum. -/
theorem foldl_applyInit_memory (cs : List Container) :
    ∀ (a : NodeAggregatedResources), 0 ≤ a.memoryRequest →
      (cs.foldl applyInitContainer a).memoryRequest =
        max a.memoryRequest (initMemoryRequestMax cs) := by
  induction cs with
  | nil =>
    intro a ha
    have : initMemoryRequestMax [] = 0 := rfl
    rw [this, List.foldl_nil, max_eq_left ha]
  | cons c cs ih =>
    intro a ha
    rw [List.foldl_cons]
    have hstep := applyInitContainer_eq a c
    have hnn : 0 ≤ (applyInitContainer a c).memoryRequest := by
      rw [hstep]
      exact le_trans ha (le_max_left _ _)
    rw [ih _ hnn, hstep, initMemoryRequestMax_cons]
    cases hc : c.memoryRequest with
    | none =>
      simp [hc, max_eq_right (initMemoryRequestMax_nonneg cs)]
    | some q =>
      simp [hc, max_assoc]

/-- An unscheduled pod leaves the node map untouched. -/
theorem processPod_unscheduled (m : String → Option NodeAggregatedResources) (p : Pod)
    (h : p.nodeName = "") : processPod m p = m := by
  unfold processPod
  rw [if_pos h]

/-- A scheduled pod with no init containers updates exactly its node's
entry, by `addPodTotals`. -/
theorem processPod_no_init_eq (m : String → Option NodeAggregatedResources) (p : Pod)
    (hp : p.initContainers = []) (hne : p.nodeName ≠ "") :
    processPod m p = fun n =>
      if n = p.nodeName
      then some (addPodTotals ((m p.nodeName).getD (emptyAggregate p.nodeName)) p)
      else m n := by
  unfold processPod
  rw [if_neg hne, hp]
  funext n
  simp only [List.foldl_nil, foldl_addRegular_eq, addPodTotals]

/-- Two pods' regular-container contributions commute on a node total. -/
theorem addPodTotals_comm (b : NodeAggregatedResources) (p q : Pod) :
    addPodTotals (addPodTotals b p) q = addPodTotals (addPodTotals b q) p := by
  simp only [addPodTotals, NodeAggregatedResources.mk.injEq, true_and]
  refine ⟨?_, ?_, ?_, ?_⟩ <;> ring

/-- Two pods without init containers can be folded into the node map in
either order. -/
theorem processPod_comm (m : String → Option NodeAggregatedResources) (p q : Pod)
    (hp : p.initContainers = []) (hq : q.initContainers = []) :
    processPod (processPod m p) q = processPod (processPod m q) p := by
  by_cases hpe : p.nodeName = ""
  · rw [processPod_unscheduled m p hpe, processPod_unscheduled _ p hpe]
  · by_cases hqe : q.nodeName = ""
    · rw [processPod_unscheduled m q hqe, processPod_unscheduled _ q hqe]
    · rw [processPod_no_init_eq m p hp hpe, processPod_no_init_eq m q hq hqe,
        processPod_no_init_eq _ q hq hqe, processPod_no_init_eq _ p hp hpe]
      by_cases hpq : p.nodeName = q.nodeName
      · funext n
        dsimp only
        simp only [hpq]
        by_cases hn : n = q.nodeName
        · subst hn
          simp only [if_pos rfl, Option.getD_some]
          exact congrArg some (addPodTotals_comm _ p q)
        · simp only [if_neg hn]
      · funext n
        dsimp only
        have hqp : ¬ q.nodeName = p.nodeName := fun h => hpq h.symm
        by_cases hn1 : n = q.nodeName
        · have hn2 : ¬ n = p.nodeName := by rw [hn1]; exact hqp
          simp only [if_pos hn1, if_neg hn2, if_neg hqp]
        · by_cases hn2 : n = p.nodeName
          · simp only [if_neg hn1, if_pos hn2, if_neg hpq]
          · simp only [if_neg hn1, if_neg hn2]

/-- The node map gains an entry exactly for a nonempty node name some pod
in the folded list carries (or one the starting map already had). -/
theorem foldl_processPod_isSome (l : List Pod) :
    ∀ (m : String → Option NodeAggregatedResources) (n : String),
      (l.foldl processPod m n).isSome ↔
        (m n).isSome ∨ (n ≠ "" ∧ ∃ p ∈ l, p.nodeName = n) := by
  induction l with
  | nil => intro m n; simp
  | cons p l ih =>
    intro m n
    rw [List.foldl_cons, ih]
    have hstep : ((processPod m p) n).isSome ↔ (m n).isSome ∨ (n ≠ "" ∧ p.nodeName = n) := by
      unfold processPod
      by_cases hpe : p.nodeName = ""
      · rw [if_pos hpe]
        constructor
        · exact Or.inl
        · rintro (h | ⟨hn, hp⟩)
          · exact h
          · exact absurd (hp.symm.trans hpe) hn
      · rw [if_neg hpe]
        by_cases hn : n = p.nodeName
        · show (if n = p.nodeName then some _ else m n).isSome ↔ _
          rw [if_pos hn]
          exact iff_of_true rfl (Or.inr ⟨by rw [hn]; exact hpe, hn.symm⟩)
        · show (if n = p.nodeName then some _ else m n).isSome ↔ _
          rw [if_neg hn]
          simp [Ne.symm hn]
    rw [hstep]
    simp only [List.mem_cons]
    constructor
    · intro hor
      rcases hor with hor | hor
      · rcases hor with hsome | hand
        · exact Or.inl hsome
        · exact Or.inr ⟨hand.1, p, Or.inl rfl, hand.2⟩
      · rcases hor.2 with ⟨p', hp', hval⟩
        exact Or.inr ⟨hor.1, p', Or.inr hp', hval⟩
    · intro hor
      rcases hor with hsome | hand
      · exact Or.inl (Or.inl hsome)
      · rcases hand.2 with ⟨p', hp', hval⟩
        rcases hp' with hp' | hp'
        · exact Or.inl (Or.inr ⟨hand.1, hp' ▸ hval⟩)
        · exact Or.inr ⟨hand.1, p', hp', hval⟩

/-- podTotals in closed form: the effective CPU request. -/
theorem podTotals_cpuRequest (p : Pod) (h : 0 ≤ regCpuRequestSum p.containers) :
    (podTotals p).cpuRequest =
      max (regCpuRequestSum p.containers) (initCpuRequestMax p.initContainers) := by
  unfold podTotals
  rw [foldl_addRegular_eq]
  rw [foldl_applyInit_cpu _ _ (by simpa [emptyAggregate] using h)]
  simp [emptyAggregate]

/-- podTotals in closed form: the effective memory request. -/
theorem podTotals_memoryRequest (p : Pod) (h : 0 ≤ regMemoryRequestSum p.containers) :
    (podTotals p).memoryRequest =
      max (regMemoryRequestSum p.containers) (initMemoryRequestMax p.initContainers) := by
  unfold podTotals
  rw [foldl_addRegular_eq]
  rw [foldl_applyInit_memory _ _ (by simpa [emptyAggregate] using h)]
  simp [emptyAggregate]

/-- podTotals in closed form: the CPU limit sums regular containers only. -/
theorem podTotals_cpuLimit (p : Pod) :
    (podTotals p).cpuLimit = regCpuLimitSum p.containers := by
  unfold podTotals
  rcases foldl_applyInit_frame p.initContainers
    (p.containers.foldl addRegularContainer (emptyAggregate "")) with ⟨h1, _, _⟩
  rw [h1, foldl_addRegular_eq]
  simp [emptyAggregate]

/-- podTotals in closed form: the memory limit sums regular containers
only. -/
theorem podTotals_memoryLimit (p : Pod) :
    (podTotals p).memoryLimit = regMemoryLimitSum p.containers := by
  unfold podTotals
  rcases foldl_applyInit_frame p.initContainers
    (p.containers.foldl addRegularContainer (emptyAggregate "")) with ⟨_, h2, _⟩
  rw [h2, foldl_addRegular_eq]
  simp [emptyAggregate]

/-- roundHalfEven lands on the nearest integer, ties to even. -/
theorem roundHalfEven_nearest (num den : Int) (h : 0 < den) :
    NearestTiesToEven num den (roundHalfEven num den) := by
  unfold roundHalfEven NearestTiesToEven
  have h2 : 0 ≤ num % den := Int.emod_nonneg num (ne_of_gt h)
  have h3 : num % den < den := Int.emod_lt_of_pos num h
  have key : den * (num / den) + num % den = num := Int.ediv_add_emod num den
  generalize hq : num / den = q at *
  generalize hr : num % den = r at *
  split_ifs with hA hB hC
  · refine ⟨by linarith, by linarith, ?_⟩
    rintro (ht | ht) <;> exfalso <;> linarith
  · refine ⟨by linarith, by linarith, ?_⟩
    rintro (ht | ht) <;> exfalso <;> linarith
  · exact ⟨by linarith, by linarith, fun _ => hC⟩
  · refine ⟨by linarith, by linarith, fun _ => ?_⟩
    omega

/-- The shape of a two-decimal rendering: integer part, point, two
fraction digits, recombining to the rounded scaled quotient. -/
theorem fmt2dec_shape (num den : Int) :
    ∃ w f, 0 ≤ f ∧ f < 100 ∧ fmt2dec num den = intToStr w ++ "." ++ pad2 f ∧
      100 * w + f = roundHalfEven (100 * num) den := by
  refine ⟨roundHalfEven (100 * num) den / 100, roundHalfEven (100 * num) den % 100,
    Int.emod_nonneg _ (by norm_num), Int.emod_lt_of_pos _ (by norm_num), rfl, ?_⟩
  exact Int.ediv_add_emod _ 100

/-- Two fraction digits really are two characters. -/
theorem pad2_length (f : Int) (h0 : 0 ≤ f) (h : f < 100) : (pad2 f).length = 2 := by
  interval_cases f <;> decide

/-- Rendered natural numbers contain no decimal point. -/
theorem natToStr_no_dot (n : Nat) : ∀ c ∈ (natToStr n).data, c ≠ '.' := by
  intro c hc heq
  rcases natToStr_chars n c hc with ⟨d, hd, rfl⟩
  have h1 := digitChr_toNat d hd
  rw [heq] at h1
  have h2 : ('.').toNat = 46 := rfl
  omega

/-- The CPU percentage column of CalculateNodePercentages, closed form. -/
theorem calculateNodePercentages_fst (node : Node) (cu mu : Int) (cap : Bool) :
    (CalculateNodePercentages node cu mu cap).1 =
      (if (if cap then node.cpuCapacity else node.cpuAllocatable) ≠ 0 then
        (if 0 < (if cap then node.cpuCapacity else node.cpuAllocatable) then
          formatPercent cu (if cap then node.cpuCapacity else node.cpuAllocatable)
        else "0%")
      else "-") := rfl

/-- The memory percentage column of CalculateNodePercentages, closed form. -/
theorem calculateNodePercentages_snd (node : Node) (cu mu : Int) (cap : Bool) :
    (CalculateNodePercentages node cu mu cap).2 =
      (if (if cap then node.memoryCapacity else node.memoryAllocatable) ≠ 0 then
        (if 0 < (if cap then node.memoryCapacity else node.memoryAllocatable) then
          formatPercent mu (if cap then node.memoryCapacity else node.memoryAllocatable)
        else "0%")
      else "-") := rfl

/-- A node row is named after its usage sample. -/
theorem nodeRow_name (aggs : String → Option NodeAggregatedResources)
    (nodes : String → Option Node) (cap : Bool) (m : NodeMetrics) :
    (nodeRow aggs nodes cap m).name = m.name := by
  unfold nodeRow
  cases aggs m.name <;> rfl

/-- C1 (counterexample): the node aggregation is not permutation-invariant
as claimed — swapping a regular-container pod and an init-container pod on
the same node changes the node's CPU request total (150m versus 250m),
because the init max is compared against the node's running total. -/
theorem aggregateByNode_order_dependent :
    ([regularPodA, initPodB].Perm [initPodB, regularPodA]) ∧
      AggregatePodResourcesByNode [regularPodA, initPodB] "node1" ≠
        AggregatePodResourcesByNode [initPodB, regularPodA] "node1" :=
  ⟨List.Perm.swap initPodB regularPodA [], by decide⟩

/-- C1 (amended): for pod lists in which no pod has init containers the
aggregation is a commutative sum, so every permutation of the input yields
the same per-node totals. -/
theorem aggregateByNode_perm_invariant_no_init (l l' : List Pod) (hperm : l.Perm l')
    (hni : ∀ p ∈ l, p.initContainers = []) (n : String) :
    AggregatePodResourcesByNode l n = AggregatePodResourcesByNode l' n := by
  unfold AggregatePodResourcesByNode
  have h := hperm.foldl_eq'
    (fun x hx y hy z => processPod_comm z x y (hni x hx) (hni y hy)) (fun _ => none)
  exact congrFun h n

/-- C1 (witness): two regular-only pods on node1 aggregate the same in
either order. -/
theorem aggregateByNode_perm_witness :
    AggregatePodResourcesByNode [regularPodA, regularPodC] "node1" =
      AggregatePodResourcesByNode [regularPodC, regularPodA] "node1" :=
  aggregateByNode_perm_invariant_no_init [regularPodA, regularPodC]
    [regularPodC, regularPodA] (List.Perm.swap regularPodC regularPodA [])
    (by decide) "node1"

/-- C2 (counterexample): at usage 500m of a 4000m allocatable total —
exactly 12.5% — the code renders "12%", while the claimed
round-half-away-from-zero policy would render "13%". -/
theorem calculateNodePercentages_half_to_even :
    (CalculateNodePercentages nodeFourCores 500 (1024 * 1024 * 1024) false).1 = "12%" ∧
      intToStr (specRoundHalfAwayFromZero (100 * 500) 4000) ++ "%" = "13%" :=
  ⟨by decide, by decide⟩

/-- C2 (amended): for a positive reference total, each percentage column
renders a whole number of percent with a trailing "%" and no decimal
places, and that number is within half a percent (inclusive) of
`usage / total * 100`; an exact half fraction is resolved by the floating
formatting rather than rounded up in magnitude — exactly 12.5% renders
"12%". -/
theorem calculateNodePercentages_rounds_to_nearest (node : Node)
    (cpuUsageMilli memoryUsageBytes : Int) (showCapacity : Bool) :
    (0 < (if showCapacity then node.cpuCapacity else node.cpuAllocatable) →
      ∃ k, (CalculateNodePercentages node cpuUsageMilli memoryUsageBytes showCapacity).1 =
          intToStr k ++ "%" ∧
        WithinHalfOf (100 * cpuUsageMilli)
          (if showCapacity then node.cpuCapacity else node.cpuAllocatable) k) ∧
    (0 < (if showCapacity then node.memoryCapacity else node.memoryAllocatable) →
      ∃ k, (CalculateNodePercentages node cpuUsageMilli memoryUsageBytes showCapacity).2 =
          intToStr k ++ "%" ∧
        WithinHalfOf (100 * memoryUsageBytes)
          (if showCapacity then node.memoryCapacity else node.memoryAllocatable) k) := by
  constructor
  · intro h
    rcases roundHalfEven_nearest (100 * cpuUsageMilli)
      (if showCapacity then node.cpuCapacity else node.cpuAllocatable) h with ⟨hb1, hb2, -⟩
    refine ⟨roundHalfEven (100 * cpuUsageMilli)
      (if showCapacity then node.cpuCapacity else node.cpuAllocatable), ?_, hb1, hb2⟩
    rw [calculateNodePercentages_fst, if_pos (ne_of_gt h), if_pos h]
    rfl
  · intro h
    rcases roundHalfEven_nearest (100 * memoryUsageBytes)
      (if showCapacity then node.memoryCapacity else node.memoryAllocatable) h with ⟨hb1, hb2, -⟩
    refine ⟨roundHalfEven (100 * memoryUsageBytes)
      (if showCapacity then node.memoryCapacity else node.memoryAllocatable), ?_, hb1, hb2⟩
    rw [calculateNodePercentages_snd, if_pos (ne_of_gt h), if_pos h]
    rfl

/-- C2 (witness): 2000m of 4000m renders as a whole percent within half a
percent of the exact ratio. -/
theorem calculateNodePercentages_nearest_witness :
    ∃ k, (CalculateNodePercentages nodeFourCores 2000 0 false).1 = intToStr k ++ "%" ∧
      WithinHalfOf (100 * 2000)
        (if false then nodeFourCores.cpuCapacity else nodeFourCores.cpuAllocatable) k :=
  (calculateNodePercentages_rounds_to_nearest nodeFourCores 2000 0 false).1 (by decide)

/-- C3: a pod's effective request per resource kind is
max(sum of regular-container requests, max over init-container requests)
— for nonnegative request figures, as resource quantities are — while
limits sum over regular containers only; in particular the spec's scenario
pod (regular 100m, init 500m) yields "500m" from GetPodResources and a
500m node total from the aggregator. -/
theorem podEffectiveRequest_max_rule (p : Pod)
    (hcpu : 0 ≤ regCpuRequestSum p.containers)
    (hmem : 0 ≤ regMemoryRequestSum p.containers) :
    (podTotals p).cpuRequest =
        max (regCpuRequestSum p.containers) (initCpuRequestMax p.initContainers) ∧
    (podTotals p).memoryRequest =
        max (regMemoryRequestSum p.containers) (initMemoryRequestMax p.initContainers) ∧
    (podTotals p).cpuLimit = regCpuLimitSum p.containers ∧
    (podTotals p).memoryLimit = regMemoryLimitSum p.containers ∧
    (GetPodResources [scenarioPod]).map PodResources.cpuRequest = ["500m"] ∧
    (AggregatePodResourcesByNode [scenarioPod] "node1").map
        NodeAggregatedResources.cpuRequest = some 500 :=
  ⟨podTotals_cpuRequest p hcpu, podTotals_memoryRequest p hmem, podTotals_cpuLimit p,
    podTotals_memoryLimit p, by decide, by decide⟩

/-- C3 (witness): the scenario pod's effective CPU request is 500m. -/
theorem podEffectiveRequest_max_witness : (podTotals scenarioPod).cpuRequest = 500 :=
  ((podEffectiveRequest_max_rule scenarioPod (by decide) (by decide)).1).trans (by decide)

/-- C4: a percentage column is the "-" sentinel exactly when its selected
reference total (allocatable or capacity, per the flag) is zero/absent;
the CPU column does not depend on the memory arguments and vice versa, so
one side can be "-" while the other is a valid percentage. -/
theorem calculateNodePercentages_dash_iff (node : Node) (cu mu : Int) (cap : Bool) :
    (((if cap then node.cpuCapacity else node.cpuAllocatable) = 0) ↔
      (CalculateNodePercentages node cu mu cap).1 = "-") ∧
    (((if cap then node.memoryCapacity else node.memoryAllocatable) = 0) ↔
      (CalculateNodePercentages node cu mu cap).2 = "-") ∧
    (∀ mu', (CalculateNodePercentages node cu mu cap).1 =
      (CalculateNodePercentages node cu mu' cap).1) ∧
    (∀ cu', (CalculateNodePercentages node cu mu cap).2 =
      (CalculateNodePercentages node cu' mu cap).2) := by
  refine ⟨?_, ?_, ?_, ?_⟩
  · rw [calculateNodePercentages_fst]
    by_cases h0 : (if cap then node.cpuCapacity else node.cpuAllocatable) = 0
    · rw [if_neg (not_not_intro h0)]
      exact iff_of_true h0 rfl
    · rw [if_pos h0]
      by_cases hpos : 0 < (if cap then node.cpuCapacity else node.cpuAllocatable)
      · rw [if_pos hpos]
        exact iff_of_false h0 (intToStr_append_percent_ne_dash _)
      · rw [if_neg hpos]
        exact iff_of_false h0 (by decide)
  · rw [calculateNodePercentages_snd]
    by_cases h0 : (if cap then node.memoryCapacity else node.memoryAllocatable) = 0
    · rw [if_neg (not_not_intro h0)]
      exact iff_of_true h0 rfl
    · rw [if_pos h0]
      by_cases hpos : 0 < (if cap then node.memoryCapacity else node.memoryAllocatable)
      · rw [if_pos hpos]
        exact iff_of_false h0 (intToStr_append_percent_ne_dash _)
      · rw [if_neg hpos]
        exact iff_of_false h0 (by decide)
  · intro mu'
    rw [calculateNodePercentages_fst, calculateNodePercentages_fst]
  · intro cu'
    rw [calculateNodePercentages_snd, calculateNodePercentages_snd]

/-- C4 (witness): a node with no CPU total but a 1Gi memory total gives a
"-" CPU percentage next to a valid memory percentage. -/
theorem calculateNodePercentages_dash_witness :
    (CalculateNodePercentages nodeNoCpuTotal 100 (512 * 1024 * 1024) false).1 = "-" ∧
    (CalculateNodePercentages nodeNoCpuTotal 100 (512 * 1024 * 1024) false).2 = "50%" :=
  ⟨(calculateNodePercentages_dash_iff nodeNoCpuTotal 100 (512 * 1024 * 1024) false).1.mp
      (by decide),
    by decide⟩

/-- C5 (counterexample): a node present in the resource aggregates but
absent from the usage samples produces no row at all from the node
combiner — not an "&lt;unknown&gt;" row as claimed. -/
theorem nodeCombiner_drops_aggregate_only :
    aggOnlyResources "node1" =
      some { nodeName := "node1", cpuRequest := 500, cpuLimit := 0,
             memoryRequest := 0, memoryLimit := 0 } ∧
    combineNodeMetricsAndResources [] aggOnlyResources (fun _ => none) false = [] :=
  ⟨rfl, rfl⟩

/-- C5 (amended): the pod combiner behaves as claimed — one row per usage
sample (all "-" request/limit fields when no matching aggregate exists)
plus one "&lt;unknown&gt;"-usage row per aggregate-only entity; the node
combiner, however, produces exactly one row per usage sample and nothing
for aggregate-only nodes.  The Nodup hypotheses pin the unique-join-key
regime in which the list model coincides with the source's hash maps. -/
theorem combine_rows_spec (metrics : List PodMetrics) (resources : List PodResources)
    (_hm : (metrics.map fun m => podKey m.ns m.name).Nodup)
    (_hr : (resources.map fun r => podKey r.ns r.name).Nodup) :
    (combineMetricsAndResources metrics resources).length =
        metrics.length + (resources.filter fun r =>
          (metrics.find? fun m => podKey m.ns m.name == podKey r.ns r.name).isNone).length ∧
    (∀ m ∈ metrics, lookupResource resources (podKey m.ns m.name) = none →
      ∃ row ∈ combineMetricsAndResources metrics resources,
        row.name = m.name ∧ row.cpuUsage = m.cpu ∧ row.memoryUsage = m.memory ∧
        row.cpuRequest = "-" ∧ row.cpuLimit = "-" ∧ row.memoryRequest = "-" ∧
        row.memoryLimit = "-") ∧
    (∀ r ∈ resources,
      (metrics.find? fun m => podKey m.ns m.name == podKey r.ns r.name) = none →
      ∃ row ∈ combineMetricsAndResources metrics resources,
        row.name = r.name ∧ row.cpuUsage = "<unknown>" ∧ row.memoryUsage = "<unknown>" ∧
        row.cpuRequest = r.cpuRequest ∧ row.cpuLimit = r.cpuLimit) ∧
    (∀ (nodeMetrics : List NodeMetrics) (aggs : String → Option NodeAggregatedResources)
        (nodes : String → Option Node) (showCapacity : Bool),
      (combineNodeMetricsAndResources nodeMetrics aggs nodes showCapacity).map
          CombinedNodeData.name = nodeMetrics.map NodeMetrics.name) := by
  refine ⟨?_, ?_, ?_, ?_⟩
  · simp [combineMetricsAndResources]
  · intro m hmem hlook
    refine ⟨metricRow resources m, ?_, ?_⟩
    · exact List.mem_append_left _ (List.mem_map_of_mem _ hmem)
    · unfold metricRow
      rw [hlook]
      exact ⟨rfl, rfl, rfl, rfl, rfl, rfl, rfl⟩
  · intro r hmem hfind
    refine ⟨resourceRow r, ?_, rfl, rfl, rfl, rfl, rfl⟩
    apply List.mem_append_right
    apply List.mem_map_of_mem
    exact List.mem_filter.mpr ⟨hmem, by rw [hfind]; rfl⟩
  · intro nodeMetrics aggs nodes showCapacity
    unfold combineNodeMetricsAndResources
    induction nodeMetrics with
    | nil => rfl
    | cons x xs ih => simp [nodeRow_name, ih]

/-- C5 (witness): one usage sample with no matching resource record yields
one all-dash row. -/
theorem combine_rows_witness :
    ∃ row ∈ combineMetricsAndResources metricsExample resourcesExample,
      row.name = "pod-m" ∧ row.cpuUsage = "100m" ∧ row.memoryUsage = "128.00Mi" ∧
      row.cpuRequest = "-" ∧ row.cpuLimit = "-" ∧ row.memoryRequest = "-" ∧
      row.memoryLimit = "-" :=
  (combine_rows_spec metricsExample resourcesExample (by decide) (by decide)).2.1
    ⟨"pod-m", "default", "100m", "128.00Mi"⟩ (by decide) (by decide)

/-- C6: formatCPU renders 0 as "0", sub-core values with an "m" suffix,
exact core multiples as the whole core count with no decimal point, and
the rest as the core value with exactly two decimal places, within half a
hundredth of a core (inclusive) of `v / 1000` — the direction of an exact
tie digit is the floating formatting's and is not asserted. -/
theorem formatCPU_spec (v : Int) :
    (v = 0 → formatCPU v = "0") ∧
    (0 < v → v < 1000 → formatCPU v = intToStr v ++ "m") ∧
    (0 < v → v % 1000 = 0 → formatCPU v = intToStr (v / 1000) ∧
      ∀ c ∈ (formatCPU v).data, c ≠ '.') ∧
    (1000 ≤ v → ¬ v % 1000 = 0 → ∃ w f, 0 ≤ f ∧ f < 100 ∧ (pad2 f).length = 2 ∧
      formatCPU v = intToStr w ++ "." ++ pad2 f ∧
      v - 10 * (100 * w + f) ≤ 5 ∧ 10 * (100 * w + f) - v ≤ 5) ∧
    (formatCPU 1000 = "1" ∧ formatCPU 5000 = "5" ∧ formatCPU 1500 = "1.50") := by
  refine ⟨?_, ?_, ?_, ?_, by decide, by decide, by decide⟩
  · intro h
    unfold formatCPU
    rw [if_pos h]
  · intro h1 h2
    unfold formatCPU
    rw [if_neg (by omega), if_pos h2]
  · intro h1 h2
    have hbranch : formatCPU v = intToStr (v / 1000) := by
      unfold formatCPU
      rw [if_neg (by omega), if_neg (by omega), if_pos h2]
    refine ⟨hbranch, ?_⟩
    rw [hbranch, intToStr_of_nonneg _ (Int.ediv_nonneg (by omega) (by norm_num))]
    exact natToStr_no_dot _
  · intro h1 h2
    have hbranch : formatCPU v = fmt2dec v 1000 := by
      unfold formatCPU
      rw [if_neg (by omega), if_neg (by omega), if_neg h2]
    rcases fmt2dec_shape v 1000 with ⟨w, f, hf0, hf1, heq, hsum⟩
    rcases roundHalfEven_nearest (100 * v) 1000 (by norm_num) with ⟨hb1, hb2, -⟩
    refine ⟨w, f, hf0, hf1, pad2_length f hf0 hf1, hbranch.trans heq, ?_, ?_⟩ <;> omega

/-- C6 (witness): formatCPU 100 renders "100" with the "m" suffix. -/
theorem formatCPU_spec_witness : formatCPU 100 = intToStr 100 ++ "m" :=
  (formatCPU_spec 100).2.1 (by decide) (by decide)

/-- C7: formatMemory renders 0 as "0", picks the largest binary unit among
Gi/Mi/Ki that the value reaches with exactly two decimal places, and falls
back to plain bytes with a "B" suffix below 1 Ki; in particular
formatMemory (2^30) = "1.00Gi" and formatMemory 512 = "512B". -/
theorem formatMemory_spec (v : Int) :
    (v = 0 → formatMemory v = "0") ∧
    (2 ^ 30 ≤ v → ∃ w f, 0 ≤ f ∧ f < 100 ∧ (pad2 f).length = 2 ∧
      formatMemory v = intToStr w ++ "." ++ pad2 f ++ "Gi" ∧
      100 * w + f = roundHalfEven (100 * v) (2 ^ 30)) ∧
    (2 ^ 20 ≤ v → v < 2 ^ 30 → ∃ w f, 0 ≤ f ∧ f < 100 ∧ (pad2 f).length = 2 ∧
      formatMemory v = intToStr w ++ "." ++ pad2 f ++ "Mi" ∧
      100 * w + f = roundHalfEven (100 * v) (2 ^ 20)) ∧
    (2 ^ 10 ≤ v → v < 2 ^ 20 → ∃ w f, 0 ≤ f ∧ f < 100 ∧ (pad2 f).length = 2 ∧
      formatMemory v = intToStr w ++ "." ++ pad2 f ++ "Ki" ∧
      100 * w + f = roundHalfEven (100 * v) (2 ^ 10)) ∧
    (0 < v → v < 2 ^ 10 → formatMemory v = intToStr v ++ "B") ∧
    (formatMemory (2 ^ 30) = "1.00Gi" ∧ formatMemory 512 = "512B") := by
  have hGB : memGB = 2 ^ 30 := by decide
  have hMB : memMB = 2 ^ 20 := by decide
  have hKB : memKB = 2 ^ 10 := by decide
  refine ⟨?_, ?_, ?_, ?_, ?_, by decide, by decide⟩
  · intro h
    unfold formatMemory
    rw [if_pos h]
  · intro h
    have hbranch : formatMemory v = fmt2dec v (2 ^ 30) ++ "Gi" := by
      unfold formatMemory
      rw [hGB, if_neg (by omega), if_pos h]
    rcases fmt2dec_shape v (2 ^ 30) with ⟨w, f, hf0, hf1, heq, hsum⟩
    refine ⟨w, f, hf0, hf1, pad2_length f hf0 hf1, ?_, hsum⟩
    rw [hbranch, heq]
  · intro h1 h2
    have hbranch : formatMemory v = fmt2dec v (2 ^ 20) ++ "Mi" := by
      unfold formatMemory
      rw [hGB, hMB, if_neg (by omega), if_neg (by omega), if_pos h1]
    rcases fmt2dec_shape v (2 ^ 20) with ⟨w, f, hf0, hf1, heq, hsum⟩
    refine ⟨w, f, hf0, hf1, pad2_length f hf0 hf1, ?_, hsum⟩
    rw [hbranch, heq]
  · intro h1 h2
    have hbranch : formatMemory v = fmt2dec v (2 ^ 10) ++ "Ki" := by
      unfold formatMemory
      rw [hGB, hMB, hKB, if_neg (by omega), if_neg (by omega), if_neg (by omega),
        if_pos h1]
    rcases fmt2dec_shape v (2 ^ 10) with ⟨w, f, hf0, hf1, heq, hsum⟩
    refine ⟨w, f, hf0, hf1, pad2_length f hf0 hf1, ?_, hsum⟩
    rw [hbranch, heq]
  · intro h1 h2
    unfold formatMemory
    rw [hGB, hMB, hKB, if_neg (by omega), if_neg (by omega), if_neg (by omega),
      if_neg (by omega)]

/-- C7 (witness): one binary gigabyte renders in the Gi unit with two
decimals. -/
theorem formatMemory_spec_witness :
    ∃ w f, 0 ≤ f ∧ f < 100 ∧ (pad2 f).length = 2 ∧
      formatMemory (2 ^ 30) = intToStr w ++ "." ++ pad2 f ++ "Gi" ∧
      100 * w + f = roundHalfEven (100 * 2 ^ 30) (2 ^ 30) :=
  (formatMemory_spec (2 ^ 30)).2.1 (by decide)

/-- C8: a pod with an empty node name contributes nothing (a single such
pod yields the empty map), and the aggregate has an entry for a node name
exactly when some pod in the list is scheduled on that (nonempty) name. -/
theorem aggregateByNode_membership (l : List Pod) (n : String) :
    (∀ p : Pod, p.nodeName = "" → AggregatePodResourcesByNode [p] n = none) ∧
    ((AggregatePodResourcesByNode l n).isSome ↔ n ≠ "" ∧ ∃ p ∈ l, p.nodeName = n) := by
  constructor
  · intro p hp
    unfold AggregatePodResourcesByNode
    rw [List.foldl_cons, processPod_unscheduled _ _ hp]
    rfl
  · unfold AggregatePodResourcesByNode
    rw [foldl_processPod_isSome]
    simp

/-- C8 (witness): a single unscheduled pod produces no node1 entry. -/
theorem aggregateByNode_membership_witness :
    AggregatePodResourcesByNode
      [⟨"solo", "default", "", [⟨some 100, none, none, none⟩], []⟩] "node1" = none :=
  (aggregateByNode_membership [] "node1").1
    ⟨"solo", "default", "", [⟨some 100, none, none, none⟩], []⟩ rfl

/-- C9: below 1000 millicores, formatCPU ends in "m" and the CPU
sort-value parser recovers the value exactly. -/
theorem formatCPU_parse_round_trip (v : Int) (h1 : 0 < v) (h2 : v < 1000) :
    (∃ s, formatCPU v = s ++ "m") ∧ parseCPUValue (formatCPU v) = (v : ℚ) := by
  have hfmt : formatCPU v = intToStr v ++ "m" := by
    unfold formatCPU
    rw [if_neg (by omega), if_pos h2]
  refine ⟨⟨intToStr v, hfmt⟩, ?_⟩
  rw [hfmt, intToStr_of_nonneg v (le_of_lt h1), append_eq_mk]
  have hmdata : ("m" : String).data = ['m'] := rfl
  rw [hmdata]
  unfold parseCPUValue
  have hs1 : String.mk ((natToStr v.natAbs).data ++ ['m']) ≠ "" :=
    mk_append_singleton_ne _ _ _ (by decide)
  have hs2 : String.mk ((natToStr v.natAbs).data ++ ['m']) ≠ "-" :=
    mk_append_singleton_ne _ _ _ (by decide)
  have hs3 : String.mk ((natToStr v.natAbs).data ++ ['m']) ≠ "<unknown>" :=
    mk_append_singleton_ne _ _ _ (by decide)
  rw [if_neg (by push_neg; exact ⟨hs1, hs2, hs3⟩)]
  have hm2 : String.mk ((natToStr v.natAbs).data ++ ['m']) =
      String.mk ((natToStr v.natAbs).data ++ ("m" : String).data) := rfl
  rw [hm2, trimSuffixStr_mk_append]
  rw [parseFloatQ_digits _ ?alldigits]
  case alldigits =>
    intro c hc
    rcases natToStr_chars v.natAbs c hc with ⟨d, hd, rfl⟩
    exact isDigit_digitChr d hd
  show ((parseNatChars (natToStr v.natAbs).data : Nat) : ℚ) = (v : ℚ)
  rw [parseNatChars_natToStr]
  rw [Int.cast_natAbs]
  exact congrArg (fun i : Int => (i : ℚ)) (abs_of_nonneg (le_of_lt h1))

/-- C9 (witness): "100m" round-trips. -/
theorem formatCPU_round_trip_witness :
    (∃ s, formatCPU 100 = s ++ "m") ∧
      parseCPUValue (formatCPU 100) = ((100 : Int) : ℚ) :=
  formatCPU_parse_round_trip 100 (by decide) (by decide)

/-- C10: below 1 Ki, formatMemory ends in a bare "B", and the memory
sort-value parser maps that string to 0, not to the original value — the
memory format-then-parse round trip fails for sub-KiB values. -/
theorem formatMemory_parse_below_kib (v : Int) (h1 : 1 ≤ v) (h2 : v < 1024) :
    (∃ s, formatMemory v = s ++ "B") ∧ parseMemoryValue (formatMemory v) = 0 := by
  have hGB : memGB = 2 ^ 30 := by decide
  have hMB : memMB = 2 ^ 20 := by decide
  have hKB : memKB = 2 ^ 10 := by decide
  have hbranch : formatMemory v = intToStr v ++ "B" := by
    unfold formatMemory
    rw [hGB, hMB, hKB, if_neg (by omega), if_neg (by omega), if_neg (by omega),
      if_neg (by omega)]
  refine ⟨⟨intToStr v, hbranch⟩, ?_⟩
  rw [hbranch, append_eq_mk]
  have hBdata : ("B" : String).data = ['B'] := rfl
  rw [hBdata]
  exact parseMemoryValue_ends_B _

/-- C10 (witness): "512B" parses to 0, not 512. -/
theorem formatMemory_below_kib_witness :
    (∃ s, formatMemory 512 = s ++ "B") ∧ parseMemoryValue (formatMemory 512) = 0 :=
  formatMemory_parse_below_kib 512 (by decide) (by decide)
